import Mathlib

/-!
Verification of the block-boundary scheduling and retune-dispatch core of
`src/rtl_sdr.c` (librtlsdr-2freq, 2-frequency continuous alternating mode).

The definitions below are a shallow embedding of the C source:
machine `uint32_t` values are modelled as `Nat` (no arithmetic in the
relevant paths can overflow 2^32 for the inputs considered, and the C code
itself never relies on wraparound here), the global mutable state of the
program is modelled as explicit state records threaded through step
functions, and the output sink is modelled as always accepting the bytes
handed to `fwrite` (the short-write failure path is outside the claims
considered here).
-/

namespace RtlSdr

/-- Buffer-length constants from `rtl_sdr.c` lines 76-79:
`DEFAULT_BUF_LENGTH = 16 * 16384`. -/
def DEFAULT_BUF_LENGTH : Nat := 16 * 16384

/-- `MINIMAL_BUF_LENGTH = 512` (line 78). -/
def MINIMAL_BUF_LENGTH : Nat := 512

/-- `MAXIMAL_BUF_LENGTH = 256 * 16384` (line 79). -/
def MAXIMAL_BUF_LENGTH : Nat := 256 * 16384

/-- Euclidean GCD loop from `gcd_u32` (lines 161-165):
`while (b) { t = b; b = a % b; a = t; } return a;`. -/
def gcd_u32 (a b : Nat) : Nat :=
  if h : b = 0 then a else gcd_u32 b (a % b)
termination_by b
decreasing_by exact Nat.mod_lt a (Nat.pos_of_ne_zero h)

/-- The chunk size computed in 2-frequency mode when no `-b` override is
given (lines 357-368): `out_block_size = gcd_u32(gcd_u32(b0, b1), 16384)`. -/
def resolvedChunk (b0 b1 : Nat) : Nat :=
  gcd_u32 (gcd_u32 b0 b1) 16384

/-- The chunk size the program actually uses, after the range check of
lines 384-393: values below `MINIMAL_BUF_LENGTH` or above
`MAXIMAL_BUF_LENGTH` fall back to `DEFAULT_BUF_LENGTH`. -/
def usedChunk (b0 b1 : Nat) : Nat :=
  if resolvedChunk b0 b1 < MINIMAL_BUF_LENGTH ∨
      MAXIMAL_BUF_LENGTH < resolvedChunk b0 b1 then
    DEFAULT_BUF_LENGTH
  else
    resolvedChunk b0 b1

/-- The static configuration read by `rtlsdr_callback`: the two
frequencies (lines 87-88) and `bytes_per_block[0]`, `bytes_per_block[1]`
(line 91).  `bpb0 = 0` encodes single-frequency mode, exactly as in the
source where `bytes_per_block` stays `{0, 0}` unless two `-f` are given. -/
structure Config where
  frequency1 : Nat
  frequency2 : Nat
  bpb0 : Nat
  bpb1 : Nat
deriving DecidableEq

/-- Indexing `bytes_per_block[i]` for the current-index values 0 and 1. -/
def bytes_per_block (cfg : Config) (i : Nat) : Nat :=
  if i = 0 then cfg.bpb0 else cfg.bpb1

/-- The mutable accountant state: `bytes_in_block` (line 92) and
`current_freq_idx` (line 93). -/
structure AccState where
  bytes_in_block : Nat
  current_freq_idx : Nat
deriving DecidableEq

/-- One accountant step, the block at lines 226-245 of `rtlsdr_callback`:
guarded by `bytes_per_block[0] > 0`, it adds `len` to `bytes_in_block`
and, when the active channel threshold is reached, resets the counter,
flips `current_freq_idx` with `^= 1`, and posts
`current_freq_idx ? frequency2 : frequency1` (the C ternary on the NEW
index) to the retune mailbox.  The returned `Option Nat` is the posted
frequency, `none` when no boundary was crossed. -/
def accStep (cfg : Config) (s : AccState) (len : Nat) : AccState × Option Nat :=
  if 0 < bytes_per_block cfg 0 then
    let bib := s.bytes_in_block + len
    if bytes_per_block cfg s.current_freq_idx ≤ bib then
      let idx := s.current_freq_idx ^^^ 1
      (⟨0, idx⟩, some (if idx = 0 then cfg.frequency1 else cfg.frequency2))
    else
      (⟨bib, s.current_freq_idx⟩, none)
  else
    (s, none)

/-- Accountant state after a whole sequence of chunk lengths, together
with the list of boundary-crossing events.  Each event records the NEW
active index at the moment of the crossing (the index whose frequency was
posted). -/
def runAccEvents (cfg : Config) (s : AccState) : List Nat → AccState × List Nat
  | [] => (s, [])
  | l :: ls =>
    let p := accStep cfg s l
    let r := runAccEvents cfg p.1 ls
    (r.1, (match p.2 with
           | some _ => [p.1.current_freq_idx]
           | none => []) ++ r.2)

/-- The mutable state touched by `rtlsdr_callback` besides the
accountant: `do_exit` (line 81) and `bytes_to_read` (line 82). -/
structure CbState where
  do_exit : Bool
  bytes_to_read : Nat
  acc : AccState
deriving DecidableEq

/-- Everything one invocation of the callback does that is visible
outside it: the new state, the number of bytes handed to `fwrite`,
whether `rtlsdr_cancel_async` was called, and the frequency posted to the
retune mailbox (if any). -/
structure CallbackOut where
  state : CbState
  written : Nat
  cancelled : Bool
  posted : Option Nat
deriving DecidableEq

/-- `rtlsdr_callback` (lines 189-247), for a non-null `ctx` and a sink
that accepts every byte: if `do_exit` is already set nothing happens;
otherwise, when `bytes_to_read > 0 && bytes_to_read < len`, `len` is
truncated to `bytes_to_read`, `do_exit` is set and the async read is
cancelled; the (possibly truncated) chunk is written; `bytes_to_read` is
decremented when positive; finally the accountant block runs. -/
def rtlsdr_callback (cfg : Config) (s : CbState) (len0 : Nat) : CallbackOut :=
  if s.do_exit then
    ⟨s, 0, false, none⟩
  else
    let hitCap : Bool := decide (0 < s.bytes_to_read) && decide (s.bytes_to_read < len0)
    let len := if hitCap then s.bytes_to_read else len0
    let de := if hitCap then true else s.do_exit
    let btr := if 0 < s.bytes_to_read then s.bytes_to_read - len else s.bytes_to_read
    let p := accStep cfg s.acc len
    ⟨⟨de, btr, p.1⟩, len, hitCap, p.2⟩

/-- Iterated callback deliveries (the async delivery loop driving
`rtlsdr_callback` once per chunk). -/
def runCallbacks (cfg : Config) (s : CbState) : List Nat → CbState
  | [] => s
  | l :: ls => runCallbacks cfg (rtlsdr_callback cfg s l).state ls

/-- The state of the sync-mode read loop (lines 459-485): `do_exit` and
`bytes_to_read`. -/
structure SyncState where
  do_exit : Bool
  bytes_to_read : Nat
deriving DecidableEq

/-- One iteration of the sync loop body (lines 462-484), given the number
of bytes `rtlsdr_read_sync` reported: cap truncation sets `do_exit`; the
chunk is written; a short read (`n_read < out_block_size`) breaks the
loop BEFORE the cap decrement; otherwise the cap is decremented.
Returns (new state, bytes written, whether the loop breaks). -/
def syncIter (obs : Nat) (s : SyncState) (n_read0 : Nat) : SyncState × Nat × Bool :=
  let hitCap : Bool := decide (0 < s.bytes_to_read) && decide (s.bytes_to_read < n_read0)
  let n_read := if hitCap then s.bytes_to_read else n_read0
  let de := if hitCap then true else s.do_exit
  if n_read < obs then
    (⟨de, s.bytes_to_read⟩, n_read, true)
  else
    (⟨de, if 0 < s.bytes_to_read then s.bytes_to_read - n_read else s.bytes_to_read⟩,
     n_read, false)

/-- The sync-mode `while (!do_exit)` loop over a list of read sizes. -/
def syncLoop (obs : Nat) (s : SyncState) : List Nat → SyncState
  | [] => s
  | n :: ns =>
    if s.do_exit then s
    else
      let r := syncIter obs s n
      if r.2.2 then r.1 else syncLoop obs r.1 ns

/-- The initial (empty) value of the retune mailbox `retune_freq`
(line 109): `0` is the sentinel for "no pending retune". -/
def emptyMailbox : Nat := 0

/-- Posting to the mailbox (lines 236-239): under the mutex the producer
simply stores the new frequency, overwriting whatever was there. -/
def postRetune (m f : Nat) : Nat := f

/-- The worker taking from the mailbox (lines 118-122): it reads
`retune_freq`, clears it to `0`, and issues `verbose_set_frequency` only
when the value read was nonzero.  Returns (new mailbox value, frequency
retuned to, if any). -/
def workerTake (m : Nat) : Nat × Option Nat :=
  (0, if m = 0 then none else some m)

/-- The wait guard of the worker (line 116):
`while (retune_freq == 0 && !do_exit) pthread_cond_wait(...)`. -/
def workerWaits (m : Nat) (de : Bool) : Bool :=
  (m == 0) && !de

/-- Posting seen at the level of the combined (accountant, mailbox)
state: the store into `retune_freq` touches only the mailbox, never the
accountant fields. -/
def postInSystem (st : AccState × Nat) (f : Nat) : AccState × Nat :=
  (st.1, postRetune st.2 f)

/-- A command-line argument as seen by the `getopt` loop (lines 269-320):
a `-f` value, a `-n` value, or any other accepted option. -/
inductive CmdArg where
  | freq (v : Nat)
  | nsamp (v : Nat)
  | other
deriving DecidableEq

/-- The option-parsing state: `freq_count`, `frequency1`, `frequency2`
(lines 86-88) and `n_count`, `n_samples[0]`, `n_samples[1]`
(lines 89-90). -/
structure OptState where
  freq_count : Nat
  frequency1 : Nat
  frequency2 : Nat
  n_count : Nat
  ns0 : Nat
  ns1 : Nat
deriving DecidableEq

/-- Initial values of the option globals (lines 86-90). -/
def initOptState : OptState :=
  ⟨0, 100000000, 100000000, 0, 0, 0⟩

/-- One `getopt` case (lines 275-308): a third `-f` or a third `-n`
prints an error and calls `usage()`, which exits — modelled as `none`.
Note the error fires before the counter increment, exactly as in C. -/
def argStep (s : OptState) : CmdArg → Option OptState
  | .freq v =>
    if s.freq_count = 0 then
      some { s with frequency1 := v, freq_count := s.freq_count + 1 }
    else if s.freq_count = 1 then
      some { s with frequency2 := v, freq_count := s.freq_count + 1 }
    else
      none
  | .nsamp v =>
    if s.n_count = 0 then
      some { s with ns0 := v, n_count := s.n_count + 1 }
    else if s.n_count = 1 then
      some { s with ns1 := v, n_count := s.n_count + 1 }
    else
      none
  | .other => some s

/-- The whole `getopt` loop (lines 269-320). -/
def parseOpts (s : OptState) : List CmdArg → Option OptState
  | [] => some s
  | a :: rest =>
    match argStep s a with
    | none => none
    | some s2 => parseOpts s2 rest

/-- The 2-frequency mode check at lines 346-352: two `-f` with no `-n`
prints an error and calls `usage()`, which exits — modelled as `none`. -/
def modeCheck (s : OptState) : Option OptState :=
  if 2 ≤ s.freq_count ∧ s.n_count = 0 then none else some s

/-- The startup path of `main` up to (but not including) `rtlsdr_open`
(line 405): the option loop followed by the mode check.  A `none` result
means the process exited via `usage()` before any hardware call. -/
def startup (args : List CmdArg) : Option OptState :=
  match parseOpts initOptState args with
  | none => none
  | some s => modeCheck s

/-- `main` reaches `rtlsdr_open` (line 405) only on the `some` branch of
`startup`: every configuration-error path exits through `usage()` first. -/
def hardwareOpened (args : List CmdArg) : Bool :=
  (startup args).isSome

/-- Is the argument a `-f` argument? -/
def isFreqArg : CmdArg → Bool
  | .freq _ => true
  | _ => false

/-- Is the argument a `-n` argument? -/
def isNArg : CmdArg → Bool
  | .nsamp _ => true
  | _ => false

/-- Number of `-f` arguments in the command line. -/
def countFreq (args : List CmdArg) : Nat :=
  (args.filter isFreqArg).length

/-- Number of `-n` arguments in the command line. -/
def countN (args : List CmdArg) : Nat :=
  (args.filter isNArg).length

/-! ## Basic facts about the embedded definitions -/

/-- The C Euclidean loop computes the mathematical greatest common
divisor. -/
theorem gcd_u32_eq (a b : Nat) : gcd_u32 a b = Nat.gcd a b := by
  induction b using Nat.strong_induction_on generalizing a with
  | _ b ih =>
    unfold gcd_u32
    split
    · rename_i hb
      subst hb
      simp [Nat.gcd_zero_right]
    · rename_i hb
      rw [ih (a % b) (Nat.mod_lt a (Nat.pos_of_ne_zero hb)) b]
      rw [Nat.gcd_comm b, ← Nat.gcd_rec, Nat.gcd_comm]

/-- The GCD-derived chunk size, before the range fallback, as a
mathematical gcd. -/
theorem resolvedChunk_eq (b0 b1 : Nat) :
    resolvedChunk b0 b1 = Nat.gcd (Nat.gcd b0 b1) 16384 := by
  rw [resolvedChunk, gcd_u32_eq, gcd_u32_eq]

/-! ## Claim C1 -/

/-- Claim C1 as stated is false: for the positive even pair
(2, 2) the GCD-derived size is 2, which is below
`MINIMAL_BUF_LENGTH = 512`, so the range check of lines 384-393 replaces
it by `DEFAULT_BUF_LENGTH = 262144` — a chunk size that neither divides
the block sizes nor stays within 16384. -/
theorem C1_counterexample :
    (0 < 2 ∧ 2 % 2 = 0) ∧
    usedChunk 2 2 = 262144 ∧
    ¬ (usedChunk 2 2 ∣ 2 ∧ usedChunk 2 2 ≤ 16384) := by
  have h1 : resolvedChunk 2 2 = 2 := by rw [resolvedChunk_eq]; norm_num
  have h2 : usedChunk 2 2 = 262144 := by
    simp [usedChunk, h1, MINIMAL_BUF_LENGTH, MAXIMAL_BUF_LENGTH, DEFAULT_BUF_LENGTH]
  refine ⟨by norm_num, h2, ?_⟩
  rw [h2]
  decide

/-- Claim C1, amended: for every pair of block sizes both divisible by
512 (the minimal transfer length, so the range fallback never fires),
the transfer chunk size the program actually uses in 2-frequency mode
with no explicit override evenly divides both block sizes and is at most
16384. -/
theorem C1_amended (b0 b1 : Nat) (h0 : 512 ∣ b0) (h1 : 512 ∣ b1) :
    usedChunk b0 b1 ∣ b0 ∧ usedChunk b0 b1 ∣ b1 ∧ usedChunk b0 b1 ≤ 16384 := by
  have hg : 512 ∣ Nat.gcd b0 b1 := Nat.dvd_gcd h0 h1
  have hr : resolvedChunk b0 b1 = Nat.gcd (Nat.gcd b0 b1) 16384 := resolvedChunk_eq b0 b1
  have h512 : 512 ∣ Nat.gcd (Nat.gcd b0 b1) 16384 :=
    Nat.dvd_gcd hg (by norm_num)
  have hpos : 0 < Nat.gcd (Nat.gcd b0 b1) 16384 :=
    Nat.gcd_pos_of_pos_right _ (by norm_num)
  have hge : 512 ≤ Nat.gcd (Nat.gcd b0 b1) 16384 := Nat.le_of_dvd hpos h512
  have hle : Nat.gcd (Nat.gcd b0 b1) 16384 ≤ 16384 :=
    Nat.le_of_dvd (by norm_num) (Nat.gcd_dvd_right _ _)
  have hused : usedChunk b0 b1 = Nat.gcd (Nat.gcd b0 b1) 16384 := by
    rw [usedChunk, hr]
    rw [if_neg]
    push_neg
    constructor
    · simpa [MINIMAL_BUF_LENGTH] using hge
    · simp only [MAXIMAL_BUF_LENGTH]
      omega
  rw [hused]
  refine ⟨?_, ?_, hle⟩
  · exact (Nat.gcd_dvd_left _ _).trans (Nat.gcd_dvd_left _ _)
  · exact (Nat.gcd_dvd_left _ _).trans (Nat.gcd_dvd_right _ _)

/-- Witness for C1 (amended) at the concrete pair (1024, 1536): the used
chunk size is 512, divides both, and is at most 16384. -/
theorem C1_amended_witness :
    (512 ∣ 1024 ∧ 512 ∣ 1536) ∧
    (usedChunk 1024 1536 ∣ 1024 ∧ usedChunk 1024 1536 ∣ 1536 ∧
      usedChunk 1024 1536 ≤ 16384) :=
  ⟨by decide, C1_amended 1024 1536 (by decide) (by decide)⟩

/-! ## Accountant step lemmas -/

/-- `bytes_per_block` at index 0 is the first entry. -/
theorem bytes_per_block_zero (cfg : Config) : bytes_per_block cfg 0 = cfg.bpb0 := by
  simp [bytes_per_block]

/-- In alternation mode the accountant step preserves the state
invariant: the index stays in {0, 1} and the accumulated byte count
stays strictly below the active channel block size. -/
theorem accStep_inv (cfg : Config) (h0 : 0 < cfg.bpb0) (h1 : 0 < cfg.bpb1)
    (s : AccState) (len : Nat) (hidx : s.current_freq_idx ≤ 1)
    (hinv : s.bytes_in_block < bytes_per_block cfg s.current_freq_idx) :
    (accStep cfg s len).1.current_freq_idx ≤ 1 ∧
    (accStep cfg s len).1.bytes_in_block <
      bytes_per_block cfg (accStep cfg s len).1.current_freq_idx := by
  have hg : 0 < bytes_per_block cfg 0 := by simpa [bytes_per_block] using h0
  by_cases hc : bytes_per_block cfg s.current_freq_idx ≤ s.bytes_in_block + len
  · simp only [accStep, if_pos hg, if_pos hc]
    rcases Nat.le_one_iff_eq_zero_or_eq_one.mp hidx with h | h <;>
      simp [h, bytes_per_block, h0, h1]
  · simp only [accStep, if_pos hg, if_neg hc]
    exact ⟨hidx, Nat.lt_of_not_le hc⟩

/-- The invariant holds after processing any sequence of chunk lengths
from any state satisfying it. -/
theorem runAccEvents_inv (cfg : Config) (h0 : 0 < cfg.bpb0) (h1 : 0 < cfg.bpb1) :
    ∀ (ls : List Nat) (s : AccState), s.current_freq_idx ≤ 1 →
    s.bytes_in_block < bytes_per_block cfg s.current_freq_idx →
    (runAccEvents cfg s ls).1.current_freq_idx ≤ 1 ∧
    (runAccEvents cfg s ls).1.bytes_in_block <
      bytes_per_block cfg (runAccEvents cfg s ls).1.current_freq_idx := by
  intro ls
  induction ls with
  | nil => intro s hidx hinv; simpa [runAccEvents] using ⟨hidx, hinv⟩
  | cons l ls ih =>
    intro s hidx hinv
    have h := accStep_inv cfg h0 h1 s l hidx hinv
    simpa [runAccEvents] using ih (accStep cfg s l).1 h.1 h.2

/-! ## Claim C2 -/

/-- Claim C2, confirmed: in alternation mode (both block sizes positive)
the accountant started at (0, 0) satisfies
`0 ≤ accumulated_bytes < plan[active_index].block_size` after processing
any sequence of delivered chunk lengths (the lower bound is inherent in
the `Nat` embedding), and a further chunk that would push the counter to
or past the threshold of the active channel instead resets the counter
to 0 and flips the active index. -/
theorem C2_invariant (cfg : Config) (h0 : 0 < cfg.bpb0) (h1 : 0 < cfg.bpb1)
    (lens : List Nat) (len : Nat)
    (hcross : bytes_per_block cfg (runAccEvents cfg ⟨0, 0⟩ lens).1.current_freq_idx ≤
      (runAccEvents cfg ⟨0, 0⟩ lens).1.bytes_in_block + len) :
    (runAccEvents cfg ⟨0, 0⟩ lens).1.bytes_in_block <
      bytes_per_block cfg (runAccEvents cfg ⟨0, 0⟩ lens).1.current_freq_idx ∧
    (accStep cfg (runAccEvents cfg ⟨0, 0⟩ lens).1 len).1.bytes_in_block = 0 ∧
    (accStep cfg (runAccEvents cfg ⟨0, 0⟩ lens).1 len).1.current_freq_idx =
      1 - (runAccEvents cfg ⟨0, 0⟩ lens).1.current_freq_idx := by
  have hg : 0 < bytes_per_block cfg 0 := by simpa [bytes_per_block] using h0
  have hinit : (0 : Nat) < bytes_per_block cfg 0 := hg
  have hrun := runAccEvents_inv cfg h0 h1 lens ⟨0, 0⟩ (by decide) (by simpa using hinit)
  refine ⟨hrun.2, ?_, ?_⟩
  · simp [accStep, if_pos hg, if_pos hcross]
  · simp only [accStep, if_pos hg, if_pos hcross]
    rcases Nat.le_one_iff_eq_zero_or_eq_one.mp hrun.1 with h | h <;> simp [h]

/-- Witness for C2 at a concrete asymmetric configuration: block sizes
(4, 6), chunks [2] already processed, next chunk of 3 crosses. -/
theorem C2_invariant_witness :
    (0 < (4:Nat) ∧ 0 < (6:Nat) ∧
      bytes_per_block ⟨1, 2, 4, 6⟩
          (runAccEvents ⟨1, 2, 4, 6⟩ ⟨0, 0⟩ [2]).1.current_freq_idx ≤
        (runAccEvents ⟨1, 2, 4, 6⟩ ⟨0, 0⟩ [2]).1.bytes_in_block + 3) ∧
    ((runAccEvents ⟨1, 2, 4, 6⟩ ⟨0, 0⟩ [2]).1.bytes_in_block <
      bytes_per_block ⟨1, 2, 4, 6⟩
        (runAccEvents ⟨1, 2, 4, 6⟩ ⟨0, 0⟩ [2]).1.current_freq_idx ∧
    (accStep ⟨1, 2, 4, 6⟩ (runAccEvents ⟨1, 2, 4, 6⟩ ⟨0, 0⟩ [2]).1 3).1.bytes_in_block = 0 ∧
    (accStep ⟨1, 2, 4, 6⟩ (runAccEvents ⟨1, 2, 4, 6⟩ ⟨0, 0⟩ [2]).1 3).1.current_freq_idx =
      1 - (runAccEvents ⟨1, 2, 4, 6⟩ ⟨0, 0⟩ [2]).1.current_freq_idx) :=
  ⟨⟨by decide, by decide, by decide⟩,
    C2_invariant ⟨1, 2, 4, 6⟩ (by decide) (by decide) [2] 3 (by decide)⟩

/-! ## Claim C3 -/

/-- Claim C3, confirmed: in alternation mode, processing one chunk of
length `len` adds `len` to the accumulated counter; if the result
reaches the active channel block size the step resets the counter to 0,
flips the active index between 0 and 1, and posts the frequency of the
newly active channel (`frequency2` when the new index is 1, i.e. the old
index was 0; `frequency1` when the new index is 0); otherwise it posts
nothing and leaves the index unchanged. -/
theorem C3_step (cfg : Config) (h0 : 0 < cfg.bpb0) (s : AccState)
    (hidx : s.current_freq_idx ≤ 1) (len : Nat) :
    if bytes_per_block cfg s.current_freq_idx ≤ s.bytes_in_block + len then
      (accStep cfg s len).1 = ⟨0, 1 - s.current_freq_idx⟩ ∧
      (accStep cfg s len).2 =
        some (if s.current_freq_idx = 0 then cfg.frequency2 else cfg.frequency1)
    else
      (accStep cfg s len).1 = ⟨s.bytes_in_block + len, s.current_freq_idx⟩ ∧
      (accStep cfg s len).2 = none := by
  have hg : 0 < bytes_per_block cfg 0 := by simpa [bytes_per_block] using h0
  by_cases hc : bytes_per_block cfg s.current_freq_idx ≤ s.bytes_in_block + len
  · rw [if_pos hc]
    simp only [accStep, if_pos hg, if_pos hc]
    rcases Nat.le_one_iff_eq_zero_or_eq_one.mp hidx with h | h <;> simp [h]
  · rw [if_neg hc]
    simp [accStep, if_pos hg, if_neg hc]

/-- Witness for C3 at block sizes (4, 6), state (3, 0), chunk 1: the
step crosses, resets the counter, flips the index to 1 and posts
`frequency2`. -/
theorem C3_step_witness :
    (0 < (4:Nat) ∧ (0:Nat) ≤ 1) ∧
    (if bytes_per_block ⟨10, 20, 4, 6⟩ 0 ≤ 3 + 1 then
      (accStep ⟨10, 20, 4, 6⟩ ⟨3, 0⟩ 1).1 = ⟨0, 1 - 0⟩ ∧
      (accStep ⟨10, 20, 4, 6⟩ ⟨3, 0⟩ 1).2 =
        some (if (0:Nat) = 0 then (20:Nat) else 10)
    else
      (accStep ⟨10, 20, 4, 6⟩ ⟨3, 0⟩ 1).1 = ⟨3 + 1, 0⟩ ∧
      (accStep ⟨10, 20, 4, 6⟩ ⟨3, 0⟩ 1).2 = none) :=
  ⟨by decide, C3_step ⟨10, 20, 4, 6⟩ (by decide) ⟨3, 0⟩ (by decide) 1⟩

/-! ## Claim C4 -/

/-- Processing a concatenation of chunk sequences composes: the final
state threads through and the event lists concatenate. -/
theorem runAccEvents_append (cfg : Config) (s : AccState) (l1 l2 : List Nat) :
    runAccEvents cfg s (l1 ++ l2) =
      ((runAccEvents cfg (runAccEvents cfg s l1).1 l2).1,
       (runAccEvents cfg s l1).2 ++ (runAccEvents cfg (runAccEvents cfg s l1).1 l2).2) := by
  induction l1 generalizing s with
  | nil => simp [runAccEvents]
  | cons l ls ih => simp [runAccEvents, ih, List.append_assoc]

/-- One whole block: with both block sizes equal to `q * c`, feeding `j`
chunks of size `c` from an accumulated count of `(q - j) * c` produces
exactly one crossing, at the last chunk, flipping the index. -/
theorem runAccEvents_block (cfg : Config) (q c : Nat) (hc : 0 < c)
    (hb0 : cfg.bpb0 = q * c) (hb1 : cfg.bpb1 = q * c) :
    ∀ (j i : Nat), 1 ≤ j → j ≤ q → i ≤ 1 →
    runAccEvents cfg ⟨(q - j) * c, i⟩ (List.replicate j c) =
      (⟨0, i ^^^ 1⟩, [i ^^^ 1]) := by
  have hbpb : ∀ k, bytes_per_block cfg k = q * c := by
    intro k; unfold bytes_per_block; split <;> simp [hb0, hb1]
  intro j
  induction j with
  | zero => intro i h1 _ _; omega
  | succ j ih =>
    intro i hj1 hjq hi
    have hq1 : 1 ≤ q := le_trans hj1 hjq
    have hqc : 0 < q * c := Nat.mul_pos hq1 hc
    by_cases hj : j = 0
    · subst hj
      have harith : (q - 1) * c + c = q * c := by
        have h : q - 1 + 1 = q := Nat.succ_pred_eq_of_pos hq1
        calc (q - 1) * c + c = (q - 1 + 1) * c := by rw [Nat.succ_mul]
          _ = q * c := by rw [h]
      simp [runAccEvents, accStep, hbpb, harith, hqc]
    · have hj1' : 1 ≤ j := Nat.one_le_iff_ne_zero.mpr hj
      have hjq' : j ≤ q := le_trans (Nat.le_succ j) hjq
      have harith : (q - (j + 1)) * c + c = (q - j) * c := by
        have h : q - j = (q - (j + 1)) + 1 := by omega
        rw [h, Nat.succ_mul]
      have hlt : (q - j) * c < q * c :=
        (Nat.mul_lt_mul_right hc).mpr (by omega)
      have hnc : ¬ (q * c ≤ (q - j) * c) := Nat.not_le.mpr hlt
      simp only [List.replicate_succ, runAccEvents]
      simp [accStep, hbpb, hqc, harith, hnc]
      exact ih i hj1' hjq' hi

/-- Closed form for whole numbers of blocks: starting at `(0, i)` with
both block sizes `q * c`, feeding `n * q` chunks of size `c` yields `n`
crossings whose new indices alternate, ending at `(0, (i + n) % 2)`. -/
theorem runAccEvents_blocks (cfg : Config) (q c : Nat) (hc : 0 < c) (hq : 1 ≤ q)
    (hb0 : cfg.bpb0 = q * c) (hb1 : cfg.bpb1 = q * c) :
    ∀ (n i : Nat), i ≤ 1 →
    runAccEvents cfg ⟨0, i⟩ (List.replicate (n * q) c) =
      (⟨0, (i + n) % 2⟩, (List.range n).map (fun t => (i + t + 1) % 2)) := by
  intro n
  induction n with
  | zero =>
    intro i hi
    have h2 : i % 2 = i := Nat.mod_eq_of_lt (by omega)
    simp [runAccEvents, h2]
  | succ n ih =>
    intro i hi
    have hrep : List.replicate ((n + 1) * q) c =
        List.replicate q c ++ List.replicate (n * q) c := by
      rw [← List.replicate_add]
      congr 1
      ring
    rw [hrep, runAccEvents_append]
    have hblock := runAccEvents_block cfg q c hc hb0 hb1 q i hq le_rfl hi
    have hstart : ((q - q) * c : Nat) = 0 := by simp
    rw [hstart] at hblock
    rw [hblock]
    have hxor : i ^^^ 1 ≤ 1 := by
      rcases Nat.le_one_iff_eq_zero_or_eq_one.mp hi with h | h <;> simp [h]
    rw [ih (i ^^^ 1) hxor]
    rcases Nat.le_one_iff_eq_zero_or_eq_one.mp hi with h | h <;> subst h
    · have hz : (0 : Nat) ^^^ 1 = 1 := by decide
      simp only [hz]
      congr 1
      · congr 1
        omega
      · rw [List.range_succ_eq_map, List.map_cons, List.map_map]
        have hfun : ((fun t => (0 + t + 1) % 2) ∘ Nat.succ) =
            (fun t : Nat => (1 + t + 1) % 2) := by
          funext t
          simp only [Function.comp_apply]
          omega
        rw [hfun]
        norm_num [List.singleton_append]
    · have hz : (1 : Nat) ^^^ 1 = 0 := by decide
      simp only [hz]
      congr 1
      · congr 1
        omega
      · rw [List.range_succ_eq_map, List.map_cons, List.map_map]
        have hfun : ((fun t => (1 + t + 1) % 2) ∘ Nat.succ) =
            (fun t : Nat => (0 + t + 1) % 2) := by
          funext t
          simp only [Function.comp_apply]
          omega
        rw [hfun]
        norm_num [List.singleton_append]

/-- Claim C4 as stated is false: with both block sizes 12 and the chunk
sequence [6, 4, 4, 6, 4] (every chunk divides the block size and the
total 24 is 2 blocks), a crossing fired by an overshooting chunk
discards the overshoot when it resets the counter, so only 1 boundary
event is emitted instead of 24 / 12 = 2. -/
theorem C4_counterexample :
    ([6, 4, 4, 6, 4] : List Nat).sum = 2 * 12 ∧
    (runAccEvents ⟨100, 200, 12, 12⟩ ⟨0, 0⟩ [6, 4, 4, 6, 4]).2.length = 1 ∧
    (runAccEvents ⟨100, 200, 12, 12⟩ ⟨0, 0⟩ [6, 4, 4, 6, 4]).2.length ≠
      ([6, 4, 4, 6, 4] : List Nat).sum / 12 := by
  decide

/-- Claim C4, amended: when every delivered chunk has the SAME length
`c` and `c` divides the common block size `B = q * c` (exactly the
situation the resolved transfer size guarantees), then over any whole
number of blocks the number of boundary-crossing events equals
total_bytes / B, and the active index alternates 0, 1, 0, 1, …
starting at 0: the t-th crossing activates index (t + 1) % 2 and the
final state is (0, n % 2) after n crossings. -/
theorem C4_amended (cfg : Config) (q c n : Nat) (hc : 0 < c) (hq : 1 ≤ q)
    (hb0 : cfg.bpb0 = q * c) (hb1 : cfg.bpb1 = q * c) :
    (runAccEvents cfg ⟨0, 0⟩ (List.replicate (n * q) c)).2.length =
      (List.replicate (n * q) c).sum / (q * c) ∧
    (runAccEvents cfg ⟨0, 0⟩ (List.replicate (n * q) c)).2 =
      (List.range n).map (fun t => (t + 1) % 2) ∧
    (runAccEvents cfg ⟨0, 0⟩ (List.replicate (n * q) c)).1 = ⟨0, n % 2⟩ := by
  have h := runAccEvents_blocks cfg q c hc hq hb0 hb1 n 0 (by decide)
  have hsum : (List.replicate (n * q) c).sum = n * (q * c) := by
    rw [List.sum_replicate, smul_eq_mul, mul_assoc]
  have hdiv : (List.replicate (n * q) c).sum / (q * c) = n := by
    rw [hsum]
    exact Nat.mul_div_cancel n (Nat.mul_pos hq hc)
  have hfun : (fun t : Nat => (0 + t + 1) % 2) = (fun t : Nat => (t + 1) % 2) := by
    funext t
    omega
  refine ⟨?_, ?_, ?_⟩
  · rw [h, hdiv]
    simp
  · rw [h]
    simp only [hfun]
  · rw [h]
    simp

/-- Witness for C4 (amended): block size 6 = 2 * 3, chunks of 3, two
blocks (4 chunks): 2 crossings, events [1, 0], final state (0, 0). -/
theorem C4_amended_witness :
    (0 < (3:Nat) ∧ 1 ≤ (2:Nat)) ∧
    ((runAccEvents ⟨7, 9, 6, 6⟩ ⟨0, 0⟩ (List.replicate (2 * 2) 3)).2.length =
      (List.replicate (2 * 2) 3).sum / (2 * 3) ∧
    (runAccEvents ⟨7, 9, 6, 6⟩ ⟨0, 0⟩ (List.replicate (2 * 2) 3)).2 =
      (List.range 2).map (fun t => (t + 1) % 2) ∧
    (runAccEvents ⟨7, 9, 6, 6⟩ ⟨0, 0⟩ (List.replicate (2 * 2) 3)).1 = ⟨0, 2 % 2⟩) :=
  ⟨⟨by decide, by decide⟩,
    C4_amended ⟨7, 9, 6, 6⟩ 2 3 2 (by decide) (by decide) rfl rfl⟩

/-! ## Claim C5 -/

/-- Claim C5 as stated is false: for the symmetric block size 24576
bytes the resolved chunk size is gcd(24576, 16384) = 8192, which is
neither the block size capped at 16384 (min(24576, 16384) = 16384) nor
equal to the block size, and a delivered chunk of exactly chunk_size
bytes does NOT trigger a boundary crossing (8192 < 24576). -/
theorem C5_counterexample :
    usedChunk 24576 24576 = 8192 ∧
    usedChunk 24576 24576 ≠ min 24576 16384 ∧
    (accStep ⟨100, 200, 24576, 24576⟩ ⟨0, 0⟩ (usedChunk 24576 24576)).2 = none := by
  have h1 : resolvedChunk 24576 24576 = 8192 := by
    rw [resolvedChunk_eq]
    norm_num
  have h2 : usedChunk 24576 24576 = 8192 := by
    simp [usedChunk, h1, MINIMAL_BUF_LENGTH, MAXIMAL_BUF_LENGTH]
  refine ⟨h2, by rw [h2]; decide, ?_⟩
  rw [h2]
  decide

/-- Claim C5, amended: in the symmetric case the resolved chunk size is
gcd(B, 16384); when the common block size B additionally divides 16384
and is at least the minimal transfer length 512, the chunk size actually
used equals B itself (hence also B capped at 16384, since B ≤ 16384),
and every delivered chunk of exactly chunk_size bytes triggers a
boundary crossing from any accountant state. -/
theorem C5_amended (B f1 f2 : Nat) (hdvd : B ∣ 16384) (hB : 512 ≤ B) (s : AccState) :
    usedChunk B B = B ∧ B ≤ 16384 ∧
    (accStep ⟨f1, f2, B, B⟩ s (usedChunk B B)).1.bytes_in_block = 0 ∧
    (accStep ⟨f1, f2, B, B⟩ s (usedChunk B B)).2.isSome = true := by
  have hle : B ≤ 16384 := Nat.le_of_dvd (by norm_num) hdvd
  have h1 : resolvedChunk B B = B := by
    rw [resolvedChunk_eq, Nat.gcd_self]
    exact Nat.gcd_eq_left hdvd
  have h2 : usedChunk B B = B := by
    rw [usedChunk, h1, if_neg]
    push_neg
    constructor
    · simpa [MINIMAL_BUF_LENGTH] using hB
    · simp only [MAXIMAL_BUF_LENGTH]
      omega
  have hg : (0:Nat) < bytes_per_block ⟨f1, f2, B, B⟩ 0 := by
    show (0:Nat) < B
    omega
  have hbpb : bytes_per_block ⟨f1, f2, B, B⟩ s.current_freq_idx = B := by
    unfold bytes_per_block
    split <;> rfl
  have hcross : bytes_per_block ⟨f1, f2, B, B⟩ s.current_freq_idx ≤
      s.bytes_in_block + usedChunk B B := by
    rw [hbpb, h2]
    exact Nat.le_add_left B _
  refine ⟨h2, hle, ?_, ?_⟩ <;> simp [accStep, hg, hcross]

/-- Witness for C5 (amended) at B = 8192: the used chunk is 8192 and a
full chunk always crosses. -/
theorem C5_amended_witness :
    ((8192:Nat) ∣ 16384 ∧ 512 ≤ (8192:Nat)) ∧
    (usedChunk 8192 8192 = 8192 ∧ (8192:Nat) ≤ 16384 ∧
     (accStep ⟨3, 4, 8192, 8192⟩ ⟨5, 1⟩ (usedChunk 8192 8192)).1.bytes_in_block = 0 ∧
     (accStep ⟨3, 4, 8192, 8192⟩ ⟨5, 1⟩ (usedChunk 8192 8192)).2.isSome = true) :=
  ⟨⟨by decide, by decide⟩, C5_amended 8192 3 4 (by decide) (by decide) ⟨5, 1⟩⟩

/-! ## Claim C6 -/

/-- Claim C6, confirmed: in single-frequency mode
(`bytes_per_block[0] = 0`) with an active total-byte cap, a delivered
chunk larger than the remaining cap is truncated to the remaining cap:
the handler writes exactly the remaining cap to the sink, sets
`do_exit`, cancels the async read, the remaining cap becomes 0, and the
accountant state is untouched. -/
theorem C6_truncation (cfg : Config) (hsingle : cfg.bpb0 = 0) (s : CbState) (len : Nat)
    (hrun : s.do_exit = false) (h1 : 0 < s.bytes_to_read) (h2 : s.bytes_to_read < len) :
    (rtlsdr_callback cfg s len).written = s.bytes_to_read ∧
    (rtlsdr_callback cfg s len).state.do_exit = true ∧
    (rtlsdr_callback cfg s len).cancelled = true ∧
    (rtlsdr_callback cfg s len).state.bytes_to_read = 0 ∧
    (rtlsdr_callback cfg s len).state.acc = s.acc := by
  simp [rtlsdr_callback, accStep, bytes_per_block, hsingle, hrun, h1, h2]

/-- Witness for C6 at the scenario of the spec: cap 20 bytes, chunk 32
bytes. -/
theorem C6_truncation_witness :
    ((⟨false, 20, ⟨0, 0⟩⟩ : CbState).do_exit = false ∧ 0 < (20:Nat) ∧ (20:Nat) < 32) ∧
    ((rtlsdr_callback ⟨1, 1, 0, 0⟩ ⟨false, 20, ⟨0, 0⟩⟩ 32).written = 20 ∧
     (rtlsdr_callback ⟨1, 1, 0, 0⟩ ⟨false, 20, ⟨0, 0⟩⟩ 32).state.do_exit = true ∧
     (rtlsdr_callback ⟨1, 1, 0, 0⟩ ⟨false, 20, ⟨0, 0⟩⟩ 32).cancelled = true ∧
     (rtlsdr_callback ⟨1, 1, 0, 0⟩ ⟨false, 20, ⟨0, 0⟩⟩ 32).state.bytes_to_read = 0 ∧
     (rtlsdr_callback ⟨1, 1, 0, 0⟩ ⟨false, 20, ⟨0, 0⟩⟩ 32).state.acc = ⟨0, 0⟩) :=
  ⟨⟨rfl, by decide, by decide⟩,
    C6_truncation ⟨1, 1, 0, 0⟩ rfl ⟨false, 20, ⟨0, 0⟩⟩ 32 rfl (by decide) (by decide)⟩

/-! ## Claim C7 -/

/-- Claim C7, confirmed: the retune mailbox holds at most one pending
frequency.  Posting F1 and then F2 with no intervening take is
indistinguishable from posting F2 alone; a subsequent worker take
observes only F2 (and clears the slot), and the accountant state is
untouched by the posting path, which writes only the mailbox. -/
theorem C7_mailbox_overwrite (a : AccState) (m f1 f2 : Nat) (h2 : f2 ≠ 0) :
    postRetune (postRetune m f1) f2 = postRetune m f2 ∧
    workerTake (postRetune (postRetune m f1) f2) = (emptyMailbox, some f2) ∧
    (postInSystem (postInSystem (a, m) f1) f2).1 = a := by
  refine ⟨rfl, ?_, rfl⟩
  simp [workerTake, postRetune, emptyMailbox, h2]

/-- Witness for C7: post 3 then 7; the take yields 7. -/
theorem C7_mailbox_overwrite_witness :
    (7 ≠ (0:Nat)) ∧
    (postRetune (postRetune 0 3) 7 = postRetune 0 7 ∧
     workerTake (postRetune (postRetune 0 3) 7) = (emptyMailbox, some 7) ∧
     (postInSystem (postInSystem (⟨1, 1⟩, 0) 3) 7).1 = ⟨1, 1⟩) :=
  ⟨by decide, C7_mailbox_overwrite ⟨1, 1⟩ 0 3 7 (by decide)⟩

/-! ## Claim C9 -/

/-- Push mode: when the remaining cap is an exact multiple of the chunk
size, every delivered full chunk leaves `do_exit` clear and decrements
the cap by one chunk (sticking at 0), with the accountant untouched in
single-frequency mode. -/
theorem callback_exact_cap (cfg : Config) (hsingle : cfg.bpb0 = 0) (len : Nat)
    (hlen : 0 < len) (a : AccState) :
    ∀ (m k : Nat), runCallbacks cfg ⟨false, k * len, a⟩ (List.replicate m len) =
      ⟨false, (k - m) * len, a⟩ := by
  intro m
  induction m with
  | zero => intro k; simp [runCallbacks]
  | succ m ih =>
    intro k
    have hstep : (rtlsdr_callback cfg ⟨false, k * len, a⟩ len).state =
        ⟨false, (k - 1) * len, a⟩ := by
      rcases Nat.eq_zero_or_pos k with hk | hk
      · subst hk
        simp [rtlsdr_callback, accStep, bytes_per_block, hsingle]
      · have h1 : ¬ (k * len < len) := by
          push_neg
          calc len = 1 * len := (one_mul len).symm
            _ ≤ k * len := Nat.mul_le_mul_right len hk
        have h2 : (0:Nat) < k * len := Nat.mul_pos hk hlen
        have h3 : k * len - len = (k - 1) * len := by
          rw [Nat.sub_mul, one_mul]
        simp [rtlsdr_callback, accStep, bytes_per_block, hsingle, h1, h2, h3]
    simp only [List.replicate_succ, runCallbacks, hstep]
    have harith : k - 1 - m = k - (m + 1) := by omega
    rw [ih (k - 1), harith]

/-- Pull mode: the sync loop behaves the same way — full reads with a
cap that is an exact multiple of the transfer size never set `do_exit`
and never break. -/
theorem sync_exact_cap (len : Nat) (hlen : 0 < len) :
    ∀ (m k : Nat), syncLoop len ⟨false, k * len⟩ (List.replicate m len) =
      ⟨false, (k - m) * len⟩ := by
  intro m
  induction m with
  | zero => intro k; simp [syncLoop]
  | succ m ih =>
    intro k
    have hiter : syncIter len ⟨false, k * len⟩ len =
        (⟨false, (k - 1) * len⟩, len, false) := by
      rcases Nat.eq_zero_or_pos k with hk | hk
      · subst hk
        simp [syncIter]
      · have h1 : ¬ (k * len < len) := by
          push_neg
          calc len = 1 * len := (one_mul len).symm
            _ ≤ k * len := Nat.mul_le_mul_right len hk
        have h2 : (0:Nat) < k * len := Nat.mul_pos hk hlen
        have h3 : k * len - len = (k - 1) * len := by
          rw [Nat.sub_mul, one_mul]
        simp [syncIter, h1, h2, h3]
    simp only [List.replicate_succ, syncLoop, hiter]
    have harith : k - 1 - m = k - (m + 1) := by omega
    simp only [Bool.false_eq_true, if_false]
    rw [ih (k - 1), harith]

/-- Claim C9 (implicit), confirmed: the total-byte cap triggers
completion only when the remaining cap is strictly smaller than a
delivered chunk.  When the cap is an exact multiple `k * len` of the
chunk size, the remaining cap reaches exactly 0 and `do_exit` is never
set, so streaming continues indefinitely past the cap — in push mode
(the async callback) and in pull mode (the sync loop) alike, for any
number `m` of delivered chunks, including `m > k`. -/
theorem C9_exact_cap_never_completes (cfg : Config) (hsingle : cfg.bpb0 = 0)
    (len k m : Nat) (hlen : 0 < len) (a : AccState) :
    (runCallbacks cfg ⟨false, k * len, a⟩ (List.replicate m len)).do_exit = false ∧
    (runCallbacks cfg ⟨false, k * len, a⟩ (List.replicate m len)).bytes_to_read =
      (k - m) * len ∧
    (syncLoop len ⟨false, k * len⟩ (List.replicate m len)).do_exit = false ∧
    (syncLoop len ⟨false, k * len⟩ (List.replicate m len)).bytes_to_read =
      (k - m) * len := by
  rw [callback_exact_cap cfg hsingle len hlen a m k, sync_exact_cap len hlen m k]
  exact ⟨rfl, rfl, rfl, rfl⟩

/-- Witness for C9: cap 8 = 2 chunks of 4, five chunks delivered: the
cap sticks at 0 and `do_exit` stays clear in both modes. -/
theorem C9_exact_cap_never_completes_witness :
    ((⟨1, 1, 0, 0⟩ : Config).bpb0 = 0 ∧ 0 < (4:Nat)) ∧
    ((runCallbacks ⟨1, 1, 0, 0⟩ ⟨false, 2 * 4, ⟨0, 0⟩⟩ (List.replicate 5 4)).do_exit = false ∧
     (runCallbacks ⟨1, 1, 0, 0⟩ ⟨false, 2 * 4, ⟨0, 0⟩⟩ (List.replicate 5 4)).bytes_to_read =
       (2 - 5) * 4 ∧
     (syncLoop 4 ⟨false, 2 * 4⟩ (List.replicate 5 4)).do_exit = false ∧
     (syncLoop 4 ⟨false, 2 * 4⟩ (List.replicate 5 4)).bytes_to_read = (2 - 5) * 4) :=
  ⟨⟨rfl, by decide⟩,
    C9_exact_cap_never_completes ⟨1, 1, 0, 0⟩ rfl 4 2 5 (by decide) ⟨0, 0⟩⟩

/-! ## Claim C10 -/

/-- Claim C10 (implicit), confirmed: the mailbox uses frequency 0 as its
empty sentinel.  A boundary crossing whose newly active frequency is 0
still flips the active index and posts 0, but the posted mailbox value
equals the empty mailbox, the worker keeps waiting on it, and even when
woken the worker issues no retune for it — the retune is silently
dropped. -/
theorem C10_zero_frequency_dropped (cfg : Config) (h0 : 0 < cfg.bpb0)
    (s : AccState) (len m : Nat)
    (hcross : bytes_per_block cfg s.current_freq_idx ≤ s.bytes_in_block + len)
    (hzero : (if s.current_freq_idx ^^^ 1 = 0 then cfg.frequency1 else cfg.frequency2) = 0) :
    (accStep cfg s len).2 = some 0 ∧
    (accStep cfg s len).1.current_freq_idx = s.current_freq_idx ^^^ 1 ∧
    postRetune m 0 = emptyMailbox ∧
    workerWaits (postRetune m 0) false = true ∧
    (workerTake (postRetune m 0)).2 = none := by
  have hg : 0 < bytes_per_block cfg 0 := by simpa [bytes_per_block] using h0
  have hzero2 : (if s.current_freq_idx = 1 then cfg.frequency1 else cfg.frequency2) = 0 := by
    simpa using hzero
  refine ⟨?_, ?_, rfl, rfl, rfl⟩ <;> simp [accStep, hg, hcross, hzero, hzero2]

/-- Witness for C10: block sizes (4, 4), frequency2 = 0, state (2, 0),
chunk 2: the crossing flips to index 1 but the posted frequency 0 is
indistinguishable from an empty mailbox and is never applied. -/
theorem C10_zero_frequency_dropped_witness :
    (0 < (4:Nat) ∧
     bytes_per_block ⟨5, 0, 4, 4⟩ (0:Nat) ≤ 2 + 2 ∧
     (if (0:Nat) ^^^ 1 = 0 then (5:Nat) else 0) = 0) ∧
    ((accStep ⟨5, 0, 4, 4⟩ ⟨2, 0⟩ 2).2 = some 0 ∧
     (accStep ⟨5, 0, 4, 4⟩ ⟨2, 0⟩ 2).1.current_freq_idx = (0:Nat) ^^^ 1 ∧
     postRetune 3 0 = emptyMailbox ∧
     workerWaits (postRetune 3 0) false = true ∧
     (workerTake (postRetune 3 0)).2 = none) :=
  ⟨⟨by decide, by decide, by decide⟩,
    C10_zero_frequency_dropped ⟨5, 0, 4, 4⟩ (by decide) ⟨2, 0⟩ 2 3 (by decide) (by decide)⟩

/-! ## Claim C8 -/

/-- A successful `getopt` case increments exactly the matching counter,
and can only succeed while that counter is at most 1. -/
theorem argStep_some (s : OptState) (a : CmdArg) (s1 : OptState)
    (h : argStep s a = some s1) :
    s1.freq_count = s.freq_count + (if isFreqArg a then 1 else 0) ∧
    s1.n_count = s.n_count + (if isNArg a then 1 else 0) ∧
    (isFreqArg a = true → s.freq_count ≤ 1) ∧
    (isNArg a = true → s.n_count ≤ 1) := by
  cases a with
  | freq v =>
    simp only [argStep] at h
    split at h
    · rename_i h0
      simp only [Option.some.injEq] at h
      subst h
      simp [isFreqArg, isNArg]
      omega
    · split at h
      · rename_i h1
        simp only [Option.some.injEq] at h
        subst h
        simp [isFreqArg, isNArg]
        omega
      · exact absurd h (by simp)
  | nsamp v =>
    simp only [argStep] at h
    split at h
    · rename_i h0
      simp only [Option.some.injEq] at h
      subst h
      simp [isFreqArg, isNArg]
      omega
    · split at h
      · rename_i h1
        simp only [Option.some.injEq] at h
        subst h
        simp [isFreqArg, isNArg]
        omega
      · exact absurd h (by simp)
  | other =>
    simp only [argStep, Option.some.injEq] at h
    subst h
    simp [isFreqArg, isNArg]

/-- A successful `getopt` case keeps both counters at most 2. -/
theorem argStep_le (s : OptState) (a : CmdArg) (s1 : OptState)
    (h : argStep s a = some s1) (hf : s.freq_count ≤ 2) (hn : s.n_count ≤ 2) :
    s1.freq_count ≤ 2 ∧ s1.n_count ≤ 2 := by
  obtain ⟨h1, h2, h3, h4⟩ := argStep_some s a s1 h
  constructor
  · by_cases hfa : isFreqArg a = true
    · have hb := h3 hfa
      rw [h1, if_pos hfa]
      omega
    · rw [h1, if_neg hfa]
      omega
  · by_cases hna : isNArg a = true
    · have hb := h4 hna
      rw [h2, if_pos hna]
      omega
    · rw [h2, if_neg hna]
      omega

/-- Counting `-f` arguments through a cons. -/
theorem countFreq_cons (a : CmdArg) (rest : List CmdArg) :
    countFreq (a :: rest) = countFreq rest + (if isFreqArg a then 1 else 0) := by
  by_cases hfa : isFreqArg a = true
  · simp [countFreq, List.filter_cons, hfa]
  · simp [countFreq, List.filter_cons, hfa]

/-- Counting `-n` arguments through a cons. -/
theorem countN_cons (a : CmdArg) (rest : List CmdArg) :
    countN (a :: rest) = countN rest + (if isNArg a then 1 else 0) := by
  by_cases hna : isNArg a = true
  · simp [countN, List.filter_cons, hna]
  · simp [countN, List.filter_cons, hna]

/-- When the whole option loop succeeds, the final counters are the
initial counters plus the argument counts. -/
theorem parseOpts_counts : ∀ (args : List CmdArg) (s s2 : OptState),
    parseOpts s args = some s2 →
    s2.freq_count = s.freq_count + countFreq args ∧
    s2.n_count = s.n_count + countN args := by
  intro args
  induction args with
  | nil =>
    intro s s2 h
    simp only [parseOpts, Option.some.injEq] at h
    subst h
    simp [countFreq, countN]
  | cons a rest ih =>
    intro s s2 h
    cases ha : argStep s a with
    | none => simp [parseOpts, ha] at h
    | some s1 =>
      simp only [parseOpts, ha] at h
      obtain ⟨h1, h2, _, _⟩ := argStep_some s a s1 ha
      obtain ⟨g1, g2⟩ := ih s1 s2 h
      rw [countFreq_cons, countN_cons]
      constructor <;> omega

/-- A third `-f` argument aborts the option loop (through `usage()`). -/
theorem parseOpts_none_freq : ∀ (args : List CmdArg) (s : OptState),
    s.freq_count ≤ 2 → s.n_count ≤ 2 → 2 < s.freq_count + countFreq args →
    parseOpts s args = none := by
  intro args
  induction args with
  | nil =>
    intro s hf hn hgt
    exfalso
    simp [countFreq] at hgt
    omega
  | cons a rest ih =>
    intro s hf hn hgt
    cases ha : argStep s a with
    | none => simp [parseOpts, ha]
    | some s1 =>
      simp only [parseOpts, ha]
      obtain ⟨h1, h2, h3, h4⟩ := argStep_some s a s1 ha
      obtain ⟨hb1, hb2⟩ := argStep_le s a s1 ha hf hn
      apply ih s1 hb1 hb2
      rw [countFreq_cons] at hgt
      omega

/-- A third `-n` argument aborts the option loop (through `usage()`). -/
theorem parseOpts_none_n : ∀ (args : List CmdArg) (s : OptState),
    s.freq_count ≤ 2 → s.n_count ≤ 2 → 2 < s.n_count + countN args →
    parseOpts s args = none := by
  intro args
  induction args with
  | nil =>
    intro s hf hn hgt
    exfalso
    simp [countN] at hgt
    omega
  | cons a rest ih =>
    intro s hf hn hgt
    cases ha : argStep s a with
    | none => simp [parseOpts, ha]
    | some s1 =>
      simp only [parseOpts, ha]
      obtain ⟨h1, h2, h3, h4⟩ := argStep_some s a s1 ha
      obtain ⟨hb1, hb2⟩ := argStep_le s a s1 ha hf hn
      apply ih s1 hb1 hb2
      rw [countN_cons] at hgt
      omega

/-- Claim C8, confirmed: with two `-f` arguments and no `-n` argument,
or with more than two `-f` or more than two `-n` arguments, the startup
path signals a fatal configuration error (exits via `usage()`) and the
program never reaches `rtlsdr_open` — no hardware is opened or
touched. -/
theorem C8_config_error_before_hardware (args : List CmdArg)
    (h : (2 ≤ countFreq args ∧ countN args = 0) ∨
      2 < countFreq args ∨ 2 < countN args) :
    startup args = none ∧ hardwareOpened args = false := by
  have hstart : startup args = none := by
    rcases h with ⟨h2f, h0n⟩ | hf | hn
    · cases hp : parseOpts initOptState args with
      | none => simp [startup, hp]
      | some s =>
        obtain ⟨hfc, hnc⟩ := parseOpts_counts args initOptState s hp
        have hfc2 : 2 ≤ s.freq_count := by
          rw [hfc]
          simp only [initOptState]
          omega
        have hnc0 : s.n_count = 0 := by
          rw [hnc]
          simp only [initOptState]
          omega
        simp [startup, hp, modeCheck, hfc2, hnc0]
    · have hnone := parseOpts_none_freq args initOptState (by simp [initOptState])
        (by simp [initOptState]) (by simp only [initOptState]; omega)
      simp [startup, hnone]
    · have hnone := parseOpts_none_n args initOptState (by simp [initOptState])
        (by simp [initOptState]) (by simp only [initOptState]; omega)
      simp [startup, hnone]
  exact ⟨hstart, by simp [hardwareOpened, hstart]⟩

/-- Witness for C8: two `-f` arguments and zero `-n` arguments make the
startup exit before opening hardware. -/
theorem C8_config_error_before_hardware_witness :
    ((2 ≤ countFreq [CmdArg.freq 100, CmdArg.freq 200] ∧
      countN [CmdArg.freq 100, CmdArg.freq 200] = 0) ∨
     2 < countFreq [CmdArg.freq 100, CmdArg.freq 200] ∨
     2 < countN [CmdArg.freq 100, CmdArg.freq 200]) ∧
    (startup [CmdArg.freq 100, CmdArg.freq 200] = none ∧
     hardwareOpened [CmdArg.freq 100, CmdArg.freq 200] = false) :=
  ⟨Or.inl ⟨by decide, by decide⟩,
    C8_config_error_before_hardware [CmdArg.freq 100, CmdArg.freq 200]
      (Or.inl ⟨by decide, by decide⟩)⟩

end RtlSdr
